import Mathlib

/-!
Verification of the grade-moderation tool (src/app.py).

Conventions of the shallow embedding:
* Python floats are modelled exactly: quantities that stay rational live in `ℚ`
  (every IEEE float is a rational number); the curve pipeline, whose standard
  deviation involves a square root, lives in `ℝ`.
* A pandas cell that may be NaN/missing is modelled as an `Option` (`none` = NaN);
  NaN propagation through arithmetic is modelled by `Option.map` / explicit `none`
  branches.  In particular `pandas.Series.std()` of fewer than two values is NaN,
  modelled as `none`.
* Python's builtin `round` rounds half to even (banker's rounding); it is modelled
  by `pyRound` below.  The generic definitions are instantiated at `ℚ` for the
  claims about the pure scalar functions and at `ℝ` inside the curve pipeline.
-/

namespace BellGrade

/-- Python's builtin `round` (round half to even) on a linear ordered field with
floor: `round(2.5) = 2`, `round(3.5) = 4`, `round(-2.5) = -2`; away from exact
halves it is rounding to the nearest integer, which is Mathlib's `round`. -/
def pyRound {α : Type} [LinearOrderedField α] [FloorRing α] [DecidableEq α] (x : α) : ℤ :=
  if Int.fract x = 1/2 then (if ⌊x⌋ % 2 = 0 then ⌊x⌋ else ⌊x⌋ + 1) else round x

/-- Lines 10-16 of app.py: the grade boundaries, in dict insertion order. -/
def BOUNDARIES : List (String × ℤ) := [("HD", 80), ("DI", 70), ("CR", 60), ("PA", 50), ("NN", 0)]

/-- Lines 26-33 of app.py, `categorize_percentage`: `pd.isna` gives "NN", otherwise
the percentage is rounded with Python's `round` and compared against
`BOUNDARIES['HD'] = 80`, `['DI'] = 70`, `['CR'] = 60`, `['PA'] = 50` in turn. -/
def categorize_percentage {α : Type} [LinearOrderedField α] [FloorRing α] [DecidableEq α]
    (pct : Option α) : String :=
  match pct with
  | none => "NN"
  | some p =>
    if 80 ≤ pyRound p then "HD"
    else if 70 ≤ pyRound p then "DI"
    else if 60 ≤ pyRound p then "CR"
    else if 50 ≤ pyRound p then "PA"
    else "NN"

/-- Lines 35-41 of app.py, `is_cusp`: NaN gives False; otherwise scan `BOUNDARIES`
and return True when `boundary > 0 and (boundary - 2) <= pct < boundary` — note the
*unrounded* percentage is compared. -/
def is_cusp (pct : Option ℚ) : Bool :=
  match pct with
  | none => false
  | some p =>
    BOUNDARIES.any (fun gb =>
      decide (0 < gb.2) && decide (((gb.2 : ℚ) - 2) ≤ p) && decide (p < (gb.2 : ℚ)))

/-- Lines 220-227 of app.py, `clean_cusps` (the cusp-avoidance policy): on the
Python-rounded value, 45-47 becomes 44, 48-49 becomes 50, 58-59 becomes 60,
68-69 becomes 70, 78-79 becomes 80, anything else is returned unchanged. -/
def clean_cusps {α : Type} [LinearOrderedField α] [FloorRing α] [DecidableEq α] (pct : α) : α :=
  if 45 ≤ pyRound pct ∧ pyRound pct ≤ 47 then 44
  else if 48 ≤ pyRound pct ∧ pyRound pct ≤ 49 then 50
  else if 58 ≤ pyRound pct ∧ pyRound pct ≤ 59 then 60
  else if 68 ≤ pyRound pct ∧ pyRound pct ≤ 69 then 70
  else if 78 ≤ pyRound pct ∧ pyRound pct ≤ 79 then 80
  else pct

/-- Line 205 of app.py: `Pct_Original = Raw_Original / max_score * 100`. -/
def to_percentage {α : Type} [Field α] (raw maxScore : α) : α := raw / maxScore * 100

/-- Line 231 of app.py: `Raw_Adjusted = Pct_Adjusted / 100 * max_score`. -/
def to_raw {α : Type} [Field α] (pct maxScore : α) : α := pct / 100 * maxScore

/-- Helper for Python's substring test: does the second character list start the
first one? -/
def leadsWith : List Char → List Char → Bool
  | _, [] => true
  | [], _ :: _ => false
  | c :: cs, p :: ps => c == p && leadsWith cs ps

/-- Helper for Python's substring test: does the pattern occur anywhere in the
character list? -/
def containsChars : List Char → List Char → Bool
  | [], pat => pat.isEmpty
  | c :: cs, pat => leadsWith (c :: cs) pat || containsChars cs pat

/-- Python's `pat in s` substring test on strings. -/
def containsSub (s pat : String) : Bool := containsChars s.toList pat.toList

/-- Lines 101-104 of app.py, `sort_priority`: 0 for a name containing
"Unposted Final Score", 1 for one containing "Final Score", 2 otherwise. -/
def sort_priority (c : String) : ℕ :=
  if containsSub c "Unposted Final Score" then 0
  else if containsSub c "Final Score" then 1
  else 2

/-- Line 109 of app.py: `sorted(numeric_cols, key=sort_priority)`.  Python's
`sorted` is a stable sort by the key; for a key ranging over the three values
0, 1, 2 a stable sort is exactly the concatenation of the three key classes in
key order, each kept in input order. -/
def sortedNumericCols (cols : List String) : List String :=
  cols.filter (fun c => sort_priority c == 0)
    ++ cols.filter (fun c => sort_priority c == 1)
    ++ cols.filter (fun c => sort_priority c == 2)

/-- Line 107 of app.py: `st.selectbox` defaults to the first option of the sorted
candidate list, so this is the default moderated column. -/
def selectedColumn (cols : List String) : Option String := (sortedNumericCols cols).head?

/-- Modelled from the spec for the refinement comparison in claim C6: rounding
half away from zero ("round(49.5) = 50", and symmetrically for negatives). -/
def roundHalfAway (q : ℚ) : ℤ := if q < 0 then -⌊-q + 1/2⌋ else ⌊q + 1/2⌋

/-- Modelled from the spec for the refinement comparison in claim C6: the band
whose lower bound (0, 50, 60, 70, 80) is the greatest one below or equal to the
half-away-from-zero rounding of the percentage ("NN" when no bound qualifies). -/
def specCategory (p : ℚ) : String :=
  if 80 ≤ roundHalfAway p then "HD"
  else if 70 ≤ roundHalfAway p then "DI"
  else if 60 ≤ roundHalfAway p then "CR"
  else if 50 ≤ roundHalfAway p then "PA"
  else "NN"

/-- A rounded value lies in none of the bands eliminated by `clean_cusps`. -/
def cuspFreeZ (r : ℤ) : Prop :=
  (r < 45 ∨ 50 ≤ r) ∧ (r < 58 ∨ 60 ≤ r) ∧ (r < 68 ∨ 70 ≤ r) ∧ (r < 78 ∨ 80 ≤ r)

/-! ### The curve pipeline over `ℝ`

The curve engine (app.py lines 198-231) computes with pandas float arithmetic,
including a square root inside `.std()`; it is modelled exactly over `ℝ`
(hence the `noncomputable` markers — `ℝ` has no executable arithmetic). -/

/-- pandas `Series.mean()`: sum divided by length.  (The empty case — 0 in Lean,
NaN in pandas — is never reached by the claims, which all concern at least one
record.) -/
noncomputable def mean (l : List ℝ) : ℝ := l.sum / l.length

/-- The sample variance with divisor n-1 (the square of pandas `.std()`). -/
noncomputable def sampleVar (l : List ℝ) : ℝ :=
  (l.map (fun x => (x - mean l)^2)).sum / ((l.length : ℝ) - 1)

/-- The value pandas `.std()` takes when it is a number: the square root of
the sample variance. -/
noncomputable def stdVal (l : List ℝ) : ℝ := Real.sqrt (sampleVar l)

/-- pandas `Series.std()` (line 209 `cur_std`): sample standard deviation with
divisor n-1; `none` models the NaN returned for fewer than two values. -/
noncomputable def sampleStd (l : List ℝ) : Option ℝ :=
  if l.length ≤ 1 then none else some (stdVal l)

/-- Line 202 of app.py: `if max_score == 0: max_score = 100`. -/
noncomputable def resolveMax (m : ℝ) : ℝ := if m = 0 then 100 else m

/-- Lines 198-205 of app.py: the `Pct_Original` column of analysis_df — the rows
with a non-missing score (pandas `dropna`), in order, converted to percentages. -/
noncomputable def pctOriginals (scores : List (Option ℝ)) (m : ℝ) : List ℝ :=
  scores.reduceOption.map (fun r => to_percentage r m)

/-- Line 214 of app.py: the affine transform
`target_mean + (pct - cur_mean) * (target_std / cur_std)`. -/
noncomputable def curveVal (ps : List ℝ) (tm ts p : ℝ) : ℝ :=
  tm + (p - mean ps) * (ts / stdVal ps)

/-- Lines 208-214 of app.py, for one record: if `cur_std` is NaN (fewer than two
records) the comparison `cur_std == 0` is false and the affine formula
propagates the NaN (0 * NaN = NaN), giving NaN; if `cur_std == 0` the original
percentage is kept; otherwise the affine transform is applied. -/
noncomputable def adjustOne (ps : List ℝ) (tm ts p : ℝ) : Option ℝ :=
  match sampleStd ps with
  | none => none
  | some cs => if cs = 0 then some p else some (curveVal ps tm ts p)

/-- Line 216 of app.py: `.clip(0, 100)` (NaN stays NaN, handled by `Option.map`
at the use sites). -/
noncomputable def clip100 (x : ℝ) : ℝ := min 100 (max 0 x)

/-- Lines 208-228 of app.py, for one record: the curve branch, then the clip,
then — when the cusp-avoidance checkbox is on — `clean_cusps`.  (On a NaN value
the real code's `round` would raise; no claim exercises that path, and the model
propagates the missing value.) -/
noncomputable def postCurve (ps : List ℝ) (tm ts : ℝ) (avoidCusps : Bool) (p : ℝ) : Option ℝ :=
  (adjustOne ps tm ts p).map (fun x =>
    match avoidCusps with
    | true => clean_cusps (clip100 x)
    | false => clip100 x)

/-- Lines 198-228 of app.py: the final `Pct_Adjusted` column over the analysis
rows.  All the pandas column operations involved are pointwise given the column
statistics, so the column is the pointwise map of `postCurve` over the original
percentages. -/
noncomputable def adjustedPcts (scores : List (Option ℝ)) (m tm ts : ℝ) (avoidCusps : Bool) :
    List (Option ℝ) :=
  (pctOriginals scores (resolveMax m)).map
    (postCurve (pctOriginals scores (resolveMax m)) tm ts avoidCusps)

/-- Every cell of the column is present (not NaN) and lies in [0, 100]. -/
def allInRange (l : List (Option ℝ)) : Prop :=
  ∀ x ∈ l, ∃ y, x = some y ∧ 0 ≤ y ∧ y ≤ 100

/-! ### The export (app.py lines 349-352) -/

/-- pandas `Series.round(d)`: round half to even at `d` decimal places. -/
noncomputable def roundTo (d : ℕ) (x : ℝ) : ℝ := (pyRound (x * 10 ^ d) : ℝ) / 10 ^ d

/-- Line 198 of app.py: `analysis_df` keeps the df_clean row indices after
`dropna`, so the analysis rows are the (index, raw score) pairs of the rows with
a non-missing score.  `k` is the index of the first row (0 for the whole table). -/
def analysisIdxFrom {β : Type} (k : ℕ) (scores : List (Option β)) : List (ℕ × β) :=
  (scores.enumFrom k).filterMap (fun is => is.2.map (fun r => (is.1, r)))

/-- The analysis rows of the whole table, with their df_clean row indices. -/
def analysisIdx {β : Type} (scores : List (Option β)) : List (ℕ × β) :=
  analysisIdxFrom 0 scores

/-- Lines 350-352 of app.py: the three cells appended for one analysis row with
raw score `r` — the curved raw mark rounded to 2 decimals, the curved percentage
rounded to 1 decimal, and the new grade label (computed on the unrounded curved
percentage).  NaN cells stay missing; the grade of a NaN percentage is "NN". -/
noncomputable def newCells (ps : List ℝ) (m tm ts : ℝ) (b : Bool) (r : ℝ) :
    Option ℝ × Option ℝ × Option String :=
  ((postCurve ps tm ts b (to_percentage r m)).map (fun x => roundTo 2 (to_raw x m)),
   (postCurve ps tm ts b (to_percentage r m)).map (fun x => roundTo 1 x),
   some (categorize_percentage (postCurve ps tm ts b (to_percentage r m))))

/-- The new cells of the df_clean row with index `i` under the `.loc` index
alignment: the cells computed for the analysis row with that index when there is
one, and NaN/blank otherwise. -/
noncomputable def exportCell (aIdx : List (ℕ × ℝ)) (ps : List ℝ) (m tm ts : ℝ) (b : Bool)
    (i : ℕ) : Option ℝ × Option ℝ × Option String :=
  match aIdx.find? (fun t => t.1 == i) with
  | some t => newCells ps m tm ts b t.2
  | none => (none, none, none)

/-- The new cells of a row as a function of its own score cell: blank when the
score is missing, the computed cells otherwise.  (The export theorem shows the
index alignment of `exportRows` produces exactly this, row by row.) -/
noncomputable def newCellsOpt (ps : List ℝ) (m tm ts : ℝ) (b : Bool) (s : Option ℝ) :
    Option ℝ × Option ℝ × Option String :=
  match s with
  | some r => newCells ps m tm ts b r
  | none => (none, none, none)

/-- Lines 349-352 of app.py: `export_df = df_clean.copy()` and then
`export_df.loc[analysis_df.index, <new column>] = <analysis column>` for the
three new columns: each output row keeps its original content unchanged and
gains the three cells selected by index alignment against the analysis rows. -/
noncomputable def exportRows {α : Type} (rows : List α) (score : α → Option ℝ)
    (m tm ts : ℝ) (b : Bool) : List (α × (Option ℝ × Option ℝ × Option String)) :=
  rows.enum.map (fun ia =>
    (ia.2,
      exportCell (analysisIdx (rows.map score)) (pctOriginals (rows.map score) (resolveMax m))
        (resolveMax m) tm ts b ia.1))

/-- Lines 350-352 of app.py: the three column names appended to the df_clean
header, in assignment order. -/
def exportHeader (header : List String) (col : String) : List String :=
  header ++ [col ++ " (Curved Raw)", col ++ " (Curved %)", col ++ " (New Grade)"]

/-! ### Evaluation lemmas for the two roundings over `ℚ` -/

lemma floor_add_half_of_lt (q : ℚ) (h : Int.fract q < 1/2) : ⌊q + 1/2⌋ = ⌊q⌋ := by
  have hf0 : 0 ≤ Int.fract q := Int.fract_nonneg q
  have hqe : (⌊q⌋ : ℚ) + Int.fract q = q := Int.floor_add_fract q
  exact Int.floor_eq_iff.mpr ⟨by linarith, by linarith⟩

lemma floor_add_half_of_ge (q : ℚ) (h : 1/2 ≤ Int.fract q) : ⌊q + 1/2⌋ = ⌊q⌋ + 1 := by
  have hf1 : Int.fract q < 1 := Int.fract_lt_one q
  have hqe : (⌊q⌋ : ℚ) + Int.fract q = q := Int.floor_add_fract q
  exact Int.floor_eq_iff.mpr ⟨by push_cast; linarith, by push_cast; linarith⟩

lemma floor_neg_add_half_of_le (q : ℚ) (h : Int.fract q ≤ 1/2) : ⌊-q + 1/2⌋ = -⌊q⌋ := by
  have hf0 : 0 ≤ Int.fract q := Int.fract_nonneg q
  have hqe : (⌊q⌋ : ℚ) + Int.fract q = q := Int.floor_add_fract q
  exact Int.floor_eq_iff.mpr ⟨by push_cast; linarith, by push_cast; linarith⟩

lemma floor_neg_add_half_of_gt (q : ℚ) (h : 1/2 < Int.fract q) : ⌊-q + 1/2⌋ = -⌊q⌋ - 1 := by
  have hf1 : Int.fract q < 1 := Int.fract_lt_one q
  have hqe : (⌊q⌋ : ℚ) + Int.fract q = q := Int.floor_add_fract q
  exact Int.floor_eq_iff.mpr ⟨by push_cast; linarith, by push_cast; linarith⟩

lemma pyRound_eq (q : ℚ) :
    pyRound q =
      if Int.fract q < 1/2 then ⌊q⌋
      else if Int.fract q = 1/2 then (if ⌊q⌋ % 2 = 0 then ⌊q⌋ else ⌊q⌋ + 1)
      else ⌊q⌋ + 1 := by
  unfold pyRound
  rcases lt_trichotomy (Int.fract q) (1/2) with h | h | h
  · rw [if_neg (show ¬ Int.fract q = 1/2 from ne_of_lt h), if_pos h, round_eq,
      floor_add_half_of_lt q h]
  · rw [if_pos h, if_neg (show ¬ Int.fract q < 1/2 from not_lt.mpr (le_of_eq h.symm)),
      if_pos h]
  · rw [if_neg (show ¬ Int.fract q = 1/2 from ne_of_gt h),
      if_neg (show ¬ Int.fract q < 1/2 from not_lt.mpr (le_of_lt h)),
      if_neg (show ¬ Int.fract q = 1/2 from ne_of_gt h), round_eq,
      floor_add_half_of_ge q (le_of_lt h)]

lemma roundHalfAway_eq (q : ℚ) :
    roundHalfAway q =
      if Int.fract q < 1/2 then ⌊q⌋
      else if Int.fract q = 1/2 then (if ⌊q⌋ < 0 then ⌊q⌋ else ⌊q⌋ + 1)
      else ⌊q⌋ + 1 := by
  unfold roundHalfAway
  by_cases hneg : q < 0
  · have hfl : (⌊q⌋ : ℚ) ≤ q := Int.floor_le q
    have hflz : ⌊q⌋ < 0 := by exact_mod_cast lt_of_le_of_lt hfl hneg
    rw [if_pos hneg]
    rcases lt_trichotomy (Int.fract q) (1/2) with h | h | h
    · rw [if_pos h, floor_neg_add_half_of_le q (le_of_lt h), neg_neg]
    · rw [if_neg (show ¬ Int.fract q < 1/2 from not_lt.mpr (le_of_eq h.symm)), if_pos h,
        if_pos hflz, floor_neg_add_half_of_le q (le_of_eq h), neg_neg]
    · rw [if_neg (show ¬ Int.fract q < 1/2 from not_lt.mpr (le_of_lt h)),
        if_neg (show ¬ Int.fract q = 1/2 from ne_of_gt h), floor_neg_add_half_of_gt q h]
      ring
  · have hq0 : 0 ≤ q := le_of_not_lt hneg
    have hflz : ¬ ⌊q⌋ < 0 := not_lt.mpr (Int.le_floor.mpr (by exact_mod_cast hq0))
    rw [if_neg hneg]
    rcases lt_trichotomy (Int.fract q) (1/2) with h | h | h
    · rw [if_pos h, floor_add_half_of_lt q h]
    · rw [if_neg (show ¬ Int.fract q < 1/2 from not_lt.mpr (le_of_eq h.symm)), if_pos h,
        if_neg hflz, floor_add_half_of_ge q (le_of_eq h.symm)]
    · rw [if_neg (show ¬ Int.fract q < 1/2 from not_lt.mpr (le_of_lt h)),
        if_neg (show ¬ Int.fract q = 1/2 from ne_of_gt h),
        floor_add_half_of_ge q (le_of_lt h)]

/-- The two roundings agree on every threshold comparison against an even bound
of at least 2: this is why banker's rounding and half-away-from-zero rounding
classify every percentage identically against the bounds 50, 60, 70, 80. -/
lemma le_pyRound_iff_le_roundHalfAway (b : ℤ) (hb : b % 2 = 0) (hb2 : 2 ≤ b) (q : ℚ) :
    b ≤ pyRound q ↔ b ≤ roundHalfAway q := by
  rw [pyRound_eq, roundHalfAway_eq]
  split_ifs <;> omega

/-- The Python rounding of an integer is itself. -/
lemma pyRound_intCast (n : ℤ) : pyRound (n : ℚ) = n := by
  rw [pyRound_eq, Int.fract_intCast, Int.floor_intCast]
  norm_num

/-! ### Helper lemmas on lists and the column-selection functions -/

lemma head?_filter {α : Type} (p : α → Bool) : ∀ l : List α, (l.filter p).head? = l.find? p
  | [] => rfl
  | a :: l => by
    cases hpa : p a <;> simp [List.filter_cons, List.find?_cons, hpa, head?_filter p l]

lemma find?_eq_head?_of_all {α : Type} (p : α → Bool) (l : List α)
    (h : ∀ x ∈ l, p x = true) : l.find? p = l.head? := by
  cases l with
  | nil => rfl
  | cons a l => simp [List.find?_cons, h a (by simp)]

lemma sort_priority_cases (c : String) :
    sort_priority c = 0 ∨ sort_priority c = 1 ∨ sort_priority c = 2 := by
  unfold sort_priority
  split_ifs <;> simp

/-! ### Claim C8: percentage conversion round-trips -/

/-- Claim C8 (confirmed): `to_raw (to_percentage raw max) max = raw` whenever
`max ≠ 0`, exactly over the rationals. -/
theorem to_raw_to_percentage_roundtrip (raw m : ℚ) (h : m ≠ 0) :
    to_raw (to_percentage raw m) m = raw := by
  unfold to_raw to_percentage
  field_simp
  ring

/-- Witness for claim C8 at raw = 15, max = 20. -/
theorem to_raw_to_percentage_roundtrip_witness :
    (20:ℚ) ≠ 0 ∧ to_raw (to_percentage (15:ℚ) 20) 20 = 15 :=
  ⟨by norm_num, to_raw_to_percentage_roundtrip 15 20 (by norm_num)⟩

/-! ### Claim C2: the cusp-avoidance zones -/

/-- Counterexample to claim C2 as stated: the claim says a rounded value of 48
is mapped to 48 ("decisively failing"), but `clean_cusps` maps it to 50. -/
theorem clean_cusps_at_48 : clean_cusps (48:ℚ) = 50 ∧ (50:ℚ) ≠ 48 := by
  have hr : pyRound (48:ℚ) = 48 := by
    have h := pyRound_intCast 48
    norm_num at h
    exact h
  constructor
  · unfold clean_cusps
    rw [hr]
    norm_num
  · norm_num

/-- Claim C2 (amended): for the boundaries 60, 70, 80, a rounded value in
[b-2, b) is mapped up to the boundary b; at the 50 boundary, rounded values in
[48, 50) are mapped to 50 while rounded values in [45, 48) are mapped down to
44; values whose rounded value lies in none of the eliminated zones are
unchanged. -/
theorem clean_cusps_zones (p : ℚ) :
    (∀ b : ℤ, b ∈ ([60, 70, 80] : List ℤ) →
      (b - 2 ≤ pyRound p ∧ pyRound p < b → clean_cusps p = (b : ℚ)))
    ∧ (48 ≤ pyRound p ∧ pyRound p < 50 → clean_cusps p = 50)
    ∧ (45 ≤ pyRound p ∧ pyRound p < 48 → clean_cusps p = 44)
    ∧ (cuspFreeZ (pyRound p) → clean_cusps p = p) := by
  unfold clean_cusps cuspFreeZ
  refine ⟨?_, ?_, ?_, ?_⟩
  · intro b hb
    rcases (by simpa using hb : b = 60 ∨ b = 70 ∨ b = 80) with rfl | rfl | rfl <;>
      (intro h; split_ifs <;> first | (exfalso; omega) | norm_num)
  · intro h
    split_ifs <;> first | (exfalso; omega) | norm_num
  · intro h
    split_ifs <;> first | (exfalso; omega) | norm_num
  · intro h
    split_ifs <;> first | (exfalso; omega) | rfl

/-- Witness for claim C2's amended statement: a rounded value of 58 (boundary
60) is mapped to 60. -/
theorem clean_cusps_zones_witness : clean_cusps (58:ℚ) = ((60:ℤ) : ℚ) := by
  have hr : pyRound (58:ℚ) = 58 := by
    have h := pyRound_intCast 58
    norm_num at h
    exact h
  exact (clean_cusps_zones 58).1 60 (by norm_num) (by rw [hr]; omega)

/-! ### Claim C3: the cusp predicate -/

lemma is_cusp_some_iff (p : ℚ) :
    is_cusp (some p) = true ↔
      ((78 ≤ p ∧ p < 80) ∨ (68 ≤ p ∧ p < 70) ∨ (58 ≤ p ∧ p < 60) ∨ (48 ≤ p ∧ p < 50)) := by
  unfold is_cusp BOUNDARIES
  simp only [List.any_cons, List.any_nil, Bool.or_eq_true, Bool.and_eq_true,
    decide_eq_true_eq, Bool.or_false]
  norm_num

/-- Counterexample to claim C3 as stated: the claim says `is_cusp(78) = false`,
but the code's range test `boundary - 2 <= pct < boundary` accepts 78. -/
theorem is_cusp_at_78 : is_cusp (some (78:ℚ)) = true :=
  (is_cusp_some_iff 78).mpr (by norm_num)

/-- Claim C3 (amended): the cusp predicate holds exactly when the unrounded
percentage lies in [b-2, b) for some boundary b in {50, 60, 70, 80} (so
`is_cusp(79) = true`, and also `is_cusp(78) = true`, contrary to the claim's
strict "rounded = boundary - 1" reading); a missing percentage is never a cusp. -/
theorem is_cusp_range_charac :
    (∀ p : ℚ, is_cusp (some p) = true ↔
      ((48 ≤ p ∧ p < 50) ∨ (58 ≤ p ∧ p < 60) ∨ (68 ≤ p ∧ p < 70) ∨ (78 ≤ p ∧ p < 80)))
    ∧ is_cusp none = false
    ∧ is_cusp (some (79:ℚ)) = true := by
  refine ⟨?_, rfl, (is_cusp_some_iff 79).mpr (by norm_num)⟩
  intro p
  rw [is_cusp_some_iff p]
  tauto

/-! ### Claim C10: idempotence of the cusp-avoidance transform -/

lemma clean_cusps_output (p : ℚ) :
    (clean_cusps p = p ∧ cuspFreeZ (pyRound p))
      ∨ clean_cusps p = 44 ∨ clean_cusps p = 50 ∨ clean_cusps p = 60
      ∨ clean_cusps p = 70 ∨ clean_cusps p = 80 := by
  unfold clean_cusps cuspFreeZ
  split_ifs with h1 h2 h3 h4 h5
  · exact Or.inr (Or.inl rfl)
  · exact Or.inr (Or.inr (Or.inl rfl))
  · exact Or.inr (Or.inr (Or.inr (Or.inl rfl)))
  · exact Or.inr (Or.inr (Or.inr (Or.inr (Or.inl rfl))))
  · exact Or.inr (Or.inr (Or.inr (Or.inr (Or.inr rfl))))
  · exact Or.inl ⟨rfl, by omega⟩

lemma clean_cusps_fixed (v : ℚ) (n : ℤ) (hv : pyRound v = n) (h : cuspFreeZ n) :
    clean_cusps v = v := by
  unfold cuspFreeZ at h
  unfold clean_cusps
  rw [hv]
  split_ifs <;> first | (exfalso; omega) | rfl

/-- Claim C10 (confirmed): `clean_cusps` is idempotent, and the rounded value of
its output never lies in an eliminated zone. -/
theorem clean_cusps_idempotent (p : ℚ) :
    clean_cusps (clean_cusps p) = clean_cusps p ∧ cuspFreeZ (pyRound (clean_cusps p)) := by
  have h44 : pyRound (44:ℚ) = 44 := by
    have h := pyRound_intCast 44; norm_num at h; exact h
  have h50 : pyRound (50:ℚ) = 50 := by
    have h := pyRound_intCast 50; norm_num at h; exact h
  have h60 : pyRound (60:ℚ) = 60 := by
    have h := pyRound_intCast 60; norm_num at h; exact h
  have h70 : pyRound (70:ℚ) = 70 := by
    have h := pyRound_intCast 70; norm_num at h; exact h
  have h80 : pyRound (80:ℚ) = 80 := by
    have h := pyRound_intCast 80; norm_num at h; exact h
  rcases clean_cusps_output p with ⟨he, hf⟩ | h | h | h | h | h
  · rw [he]
    exact ⟨he, hf⟩
  · rw [h, h44]
    have hfree : cuspFreeZ 44 := by unfold cuspFreeZ; omega
    exact ⟨clean_cusps_fixed 44 44 h44 hfree, hfree⟩
  · rw [h, h50]
    have hfree : cuspFreeZ 50 := by unfold cuspFreeZ; omega
    exact ⟨clean_cusps_fixed 50 50 h50 hfree, hfree⟩
  · rw [h, h60]
    have hfree : cuspFreeZ 60 := by unfold cuspFreeZ; omega
    exact ⟨clean_cusps_fixed 60 60 h60 hfree, hfree⟩
  · rw [h, h70]
    have hfree : cuspFreeZ 70 := by unfold cuspFreeZ; omega
    exact ⟨clean_cusps_fixed 70 70 h70 hfree, hfree⟩
  · rw [h, h80]
    have hfree : cuspFreeZ 80 := by unfold cuspFreeZ; omega
    exact ⟨clean_cusps_fixed 80 80 h80 hfree, hfree⟩

/-! ### Claim C7: default column selection -/

/-- Counterexample to claim C7 as stated: the claim says a column containing
"Total" is preferred over other candidates, but `sort_priority` has no case for
"Total" or "Current Score", so with candidates ["Quiz", "Total"] the stable sort
keeps input order and "Quiz" is selected. -/
theorem selected_column_total_no_preference :
    selectedColumn ["Quiz", "Total"] = some "Quiz" ∧ ("Quiz" : String) ≠ "Total" := by
  constructor
  · decide
  · decide

/-- Claim C7 (amended): default column selection prefers, in order, a column
whose name contains "Unposted Final Score", then one containing "Final Score",
and otherwise falls back to the first candidate in input order; names containing
"Current Score" or "Total" receive no preference.  Ties are broken by input
order (the first matching column wins). -/
theorem selected_column_priority (cols : List String) :
    selectedColumn cols =
      match cols.find? (fun c => sort_priority c == 0),
            cols.find? (fun c => sort_priority c == 1) with
      | some c, _ => some c
      | none, some c => some c
      | none, none => cols.head? := by
  unfold selectedColumn sortedNumericCols
  rw [List.head?_append, List.head?_append, head?_filter, head?_filter, head?_filter]
  rcases h0 : cols.find? (fun c => sort_priority c == 0) with _ | c0
  · rcases h1 : cols.find? (fun c => sort_priority c == 1) with _ | c1
    · have hall : ∀ x ∈ cols, (sort_priority x == 2) = true := by
        intro x hx
        have e0 := List.find?_eq_none.mp h0 x hx
        have e1 := List.find?_eq_none.mp h1 x hx
        simp only [beq_iff_eq] at e0 e1 ⊢
        rcases sort_priority_cases x with h | h | h <;> omega
      rw [find?_eq_head?_of_all _ _ hall]
      simp [Option.or]
    · simp [Option.or]
  · simp [Option.or]

/-! ### Helper lemmas for the curve pipeline -/

lemma adjustOne_of_short (ps : List ℝ) (tm ts p : ℝ) (h : ps.length ≤ 1) :
    adjustOne ps tm ts p = none := by
  unfold adjustOne sampleStd
  rw [if_pos h]

lemma adjustOne_of_zero (ps : List ℝ) (tm ts p : ℝ) (h : ¬ ps.length ≤ 1)
    (hcs : stdVal ps = 0) : adjustOne ps tm ts p = some p := by
  unfold adjustOne sampleStd
  rw [if_neg h]
  simp only [hcs, if_pos]

lemma adjustOne_of_pos (ps : List ℝ) (tm ts p : ℝ) (h : ¬ ps.length ≤ 1)
    (hcs : stdVal ps ≠ 0) : adjustOne ps tm ts p = some (curveVal ps tm ts p) := by
  unfold adjustOne sampleStd
  rw [if_neg h]
  simp only [if_neg hcs]

lemma clip100_mem (x : ℝ) : 0 ≤ clip100 x ∧ clip100 x ≤ 100 := by
  unfold clip100
  exact ⟨le_min (by norm_num) (le_max_left 0 x), min_le_left _ _⟩

lemma clip100_eq_self (x : ℝ) (h0 : 0 ≤ x) (h1 : x ≤ 100) : clip100 x = x := by
  unfold clip100
  rw [max_eq_right h0, min_eq_right h1]

lemma clean_cusps_bounds (x : ℝ) (h : 0 ≤ x ∧ x ≤ 100) :
    0 ≤ clean_cusps x ∧ clean_cusps x ≤ 100 := by
  unfold clean_cusps
  split_ifs <;> first | exact h | constructor <;> norm_num

lemma postCurve_mem_of_some (ps : List ℝ) (tm ts : ℝ) (b : Bool) (p v : ℝ)
    (h : adjustOne ps tm ts p = some v) :
    ∃ y, postCurve ps tm ts b p = some y ∧ 0 ≤ y ∧ y ≤ 100 := by
  unfold postCurve
  rw [h]
  cases b
  · exact ⟨clip100 v, rfl, (clip100_mem v).1, (clip100_mem v).2⟩
  · exact ⟨clean_cusps (clip100 v), rfl,
      (clean_cusps_bounds _ (clip100_mem v)).1, (clean_cusps_bounds _ (clip100_mem v)).2⟩

lemma sum_map_affine (l : List ℝ) (a b : ℝ) :
    (l.map (fun x => a + b * x)).sum = l.length * a + b * l.sum := by
  induction l with
  | nil => simp
  | cons x l ih =>
    simp only [List.map_cons, List.sum_cons, List.length_cons, ih]
    push_cast
    ring

lemma mean_map_affine (l : List ℝ) (a b : ℝ) (hl : l ≠ []) :
    mean (l.map (fun x => a + b * x)) = a + b * mean l := by
  have h0 : (l.length : ℝ) ≠ 0 := by
    exact_mod_cast (List.length_pos.mpr hl).ne'
  unfold mean
  rw [List.length_map, sum_map_affine]
  field_simp
  ring

lemma sum_map_mul_left' (l : List ℝ) (c : ℝ) (f : ℝ → ℝ) :
    (l.map (fun x => c * f x)).sum = c * (l.map f).sum := by
  induction l with
  | nil => simp
  | cons x l ih => simp only [List.map_cons, List.sum_cons, ih]; ring

lemma sampleVar_map_affine (l : List ℝ) (a b : ℝ) (hl : l ≠ []) :
    sampleVar (l.map (fun x => a + b * x)) = b^2 * sampleVar l := by
  unfold sampleVar
  rw [List.length_map, mean_map_affine l a b hl, List.map_map]
  have hfun : ((fun x => (x - (a + b * mean l))^2) ∘ (fun x => a + b * x))
      = fun x => b^2 * (x - mean l)^2 := by
    funext x
    simp only [Function.comp_apply]
    ring
  rw [hfun, sum_map_mul_left' l (b^2) (fun x => (x - mean l)^2)]
  ring

lemma sampleVar_nonneg (l : List ℝ) (h2 : 2 ≤ l.length) : 0 ≤ sampleVar l := by
  unfold sampleVar
  apply div_nonneg
  · apply List.sum_nonneg
    intro x hx
    rcases List.mem_map.mp hx with ⟨y, -, rfl⟩
    positivity
  · have h : (2:ℝ) ≤ (l.length : ℝ) := by exact_mod_cast h2
    linarith

lemma stdVal_pos (l : List ℝ) (h2 : 2 ≤ l.length) (hv : sampleVar l ≠ 0) :
    0 < stdVal l :=
  Real.sqrt_pos.mpr (lt_of_le_of_ne (sampleVar_nonneg l h2) (Ne.symm hv))

lemma reduceOption_map_some {α : Type} (l : List α) : (l.map some).reduceOption = l := by
  induction l with
  | nil => rfl
  | cons x l ih => simp [List.reduceOption_cons_of_some, ih]

/-! ### Claim C1: the zero-spread identity branch -/

/-- Counterexample to claim C1's single-record case: with exactly one record
(raw 70 of max 100), pandas' sample standard deviation is NaN — not 0 — so the
`cur_std == 0` identity branch is *not* taken; the affine formula multiplies by
the NaN ratio and produces NaN, and the record's `Pct_Adjusted` is NaN rather
than the original 70. -/
theorem curve_single_record_nan :
    adjustedPcts [some (70:ℝ)] 100 65 15 false = [none]
    ∧ (pctOriginals [some (70:ℝ)] (resolveMax 100)).map some = [some (70:ℝ)]
    ∧ ([none] : List (Option ℝ)) ≠ [some (70:ℝ)] := by
  have hps : pctOriginals [some (70:ℝ)] (resolveMax 100) = [70] := by
    unfold pctOriginals resolveMax to_percentage
    rw [if_neg (by norm_num)]
    simp [List.reduceOption_cons_of_some]
  refine ⟨?_, by rw [hps]; simp, by simp⟩
  unfold adjustedPcts
  rw [hps]
  simp only [List.map_cons, List.map_nil]
  unfold postCurve
  rw [adjustOne_of_short [70] 65 15 70 (by simp)]
  rfl

/-- Claim C1 (amended): if `cur_std` is the number 0 — which happens exactly
when there are at least two records and all original percentages coincide; for
a single record `cur_std` is NaN, not 0 (see the counterexample) — and the
original percentages lie in [0, 100] (so the subsequent clip is the identity),
then every record's adjusted percentage equals its original percentage. -/
theorem curve_identity_zero_std (scores : List (Option ℝ)) (m tm ts : ℝ)
    (h0 : sampleStd (pctOriginals scores (resolveMax m)) = some 0)
    (hin : ∀ p ∈ pctOriginals scores (resolveMax m), 0 ≤ p ∧ p ≤ 100) :
    adjustedPcts scores m tm ts false = (pctOriginals scores (resolveMax m)).map some := by
  have hlen : ¬ (pctOriginals scores (resolveMax m)).length ≤ 1 := by
    intro hle
    unfold sampleStd at h0
    rw [if_pos hle] at h0
    exact Option.noConfusion h0
  have hcs : stdVal (pctOriginals scores (resolveMax m)) = 0 := by
    unfold sampleStd at h0
    rw [if_neg hlen] at h0
    exact Option.some.inj h0
  unfold adjustedPcts
  apply List.map_congr_left
  intro p hp
  unfold postCurve
  rw [adjustOne_of_zero _ _ _ _ hlen hcs]
  have h := hin p hp
  simp only [Option.map_some']
  rw [clip100_eq_self p h.1 h.2]

/-- Witness for claim C1's amended statement: two identical records (raw 70 of
max 100) have `cur_std = 0` and keep their percentages unchanged. -/
theorem curve_identity_zero_std_witness :
    adjustedPcts [some (70:ℝ), some 70] 100 65 15 false
      = (pctOriginals [some (70:ℝ), some 70] (resolveMax 100)).map some := by
  have hps : pctOriginals [some (70:ℝ), some 70] (resolveMax 100) = [70, 70] := by
    unfold pctOriginals resolveMax to_percentage
    rw [if_neg (by norm_num)]
    simp [List.reduceOption_cons_of_some]
  apply curve_identity_zero_std
  · rw [hps]
    have hmean : mean [(70:ℝ), 70] = 70 := by
      unfold mean
      norm_num
    have hvar : sampleVar [(70:ℝ), 70] = 0 := by
      unfold sampleVar
      rw [hmean]
      norm_num
    unfold sampleStd stdVal
    rw [hvar, if_neg (by norm_num), Real.sqrt_zero]
  · intro p hp
    rw [hps] at hp
    rcases List.mem_cons.mp hp with rfl | hp2
    · norm_num
    · rcases List.mem_cons.mp hp2 with rfl | hp3
      · norm_num
      · exact absurd hp3 (List.not_mem_nil p)

/-! ### Claim C4: the curved moments hit the targets -/

/-- Claim C4 (confirmed): when the sample standard deviation of the original
percentages is a nonzero number (at least two records, nonzero variance), the
caller's `target_std` is nonnegative, no smoothing policy is active and no
value needs clipping, the adjusted percentages have mean exactly `target_mean`
and sample standard deviation exactly `target_std`. -/
theorem curve_moments (scores : List (Option ℝ)) (m tm ts : ℝ) (hts : 0 ≤ ts)
    (h2 : 2 ≤ (pctOriginals scores (resolveMax m)).length)
    (hv : sampleVar (pctOriginals scores (resolveMax m)) ≠ 0)
    (hclip : ∀ p ∈ pctOriginals scores (resolveMax m),
      0 ≤ curveVal (pctOriginals scores (resolveMax m)) tm ts p
        ∧ curveVal (pctOriginals scores (resolveMax m)) tm ts p ≤ 100) :
    mean ((adjustedPcts scores m tm ts false).reduceOption) = tm
    ∧ sampleStd ((adjustedPcts scores m tm ts false).reduceOption) = some ts := by
  set ps := pctOriginals scores (resolveMax m) with hps
  have hlne : ps ≠ [] := by
    intro h
    rw [h] at h2
    simp at h2
  have hlen : ¬ ps.length ≤ 1 := by omega
  have hcs : stdVal ps ≠ 0 := ne_of_gt (stdVal_pos ps h2 hv)
  have hout : adjustedPcts scores m tm ts false
      = (ps.map (curveVal ps tm ts)).map some := by
    unfold adjustedPcts
    rw [← hps, List.map_map]
    apply List.map_congr_left
    intro p hp
    unfold postCurve
    rw [adjustOne_of_pos _ _ _ _ hlen hcs]
    have h := hclip p hp
    simp only [Option.map_some', Function.comp_apply]
    rw [clip100_eq_self _ h.1 h.2]
  rw [hout, reduceOption_map_some]
  have haff : ps.map (curveVal ps tm ts)
      = ps.map (fun x => (tm - mean ps * (ts / stdVal ps)) + (ts / stdVal ps) * x) := by
    apply List.map_congr_left
    intro x hx
    unfold curveVal
    ring
  constructor
  · rw [haff, mean_map_affine ps _ _ hlne]
    ring
  · unfold sampleStd
    rw [if_neg (by rw [List.length_map]; omega)]
    congr 1
    unfold stdVal
    rw [haff, sampleVar_map_affine ps _ _ hlne,
      Real.sqrt_mul' _ (sampleVar_nonneg ps h2), Real.sqrt_sq_eq_abs,
      abs_of_nonneg (div_nonneg hts (le_of_lt (stdVal_pos ps h2 hv)))]
    have hsq : Real.sqrt (sampleVar ps) = stdVal ps := rfl
    rw [hsq]
    exact div_mul_cancel₀ ts hcs

/-- Witness for claim C4 at the records [50, 60, 70] (max 100), target mean 65,
target std 5: the original mean is 60, the sample variance 100 (std 10), the
curved values are [60, 65, 70], whose mean is 65 and sample std is 5. -/
theorem curve_moments_witness :
    mean ((adjustedPcts [some (50:ℝ), some 60, some 70] 100 65 5 false).reduceOption) = 65
    ∧ sampleStd ((adjustedPcts [some (50:ℝ), some 60, some 70] 100 65 5 false).reduceOption)
        = some 5 := by
  have hps : pctOriginals [some (50:ℝ), some 60, some 70] (resolveMax 100) = [50, 60, 70] := by
    unfold pctOriginals resolveMax to_percentage
    rw [if_neg (by norm_num)]
    simp [List.reduceOption_cons_of_some]
  have hmean : mean [(50:ℝ), 60, 70] = 60 := by
    unfold mean
    norm_num
  have hvar : sampleVar [(50:ℝ), 60, 70] = 100 := by
    unfold sampleVar
    rw [hmean]
    norm_num
  have hstd : stdVal [(50:ℝ), 60, 70] = 10 := by
    unfold stdVal
    rw [hvar, show (100:ℝ) = 10^2 by norm_num, Real.sqrt_sq (by norm_num)]
  apply curve_moments
  · norm_num
  · rw [hps]
    norm_num
  · rw [hps, hvar]
    norm_num
  · intro p hp
    rw [hps] at hp ⊢
    unfold curveVal
    rw [hmean, hstd]
    rcases List.mem_cons.mp hp with rfl | hp2
    · norm_num
    · rcases List.mem_cons.mp hp2 with rfl | hp3
      · norm_num
      · rcases List.mem_cons.mp hp3 with rfl | hp4
        · norm_num
        · exact absurd hp4 (List.not_mem_nil p)

/-! ### Claim C5: the adjusted percentages stay in [0, 100] -/

/-- Counterexample to claim C5 as stated: with a single record the adjusted
percentage is NaN (pandas' sample std of one value is NaN and it propagates),
so it does not lie in [0, 100]. -/
theorem adjusted_nan_single_record :
    ¬ allInRange (adjustedPcts [some (40:ℝ)] 100 60 10 false) := by
  intro h
  have hps : pctOriginals [some (40:ℝ)] (resolveMax 100) = [40] := by
    unfold pctOriginals resolveMax to_percentage
    rw [if_neg (by norm_num)]
    simp [List.reduceOption_cons_of_some]
  have hadj : adjustedPcts [some (40:ℝ)] 100 60 10 false = [none] := by
    unfold adjustedPcts
    rw [hps]
    simp only [List.map_cons, List.map_nil]
    unfold postCurve
    rw [adjustOne_of_short [40] 60 10 40 (by simp)]
    rfl
  rw [hadj] at h
  rcases h none (by simp) with ⟨y, hy, -⟩
  exact Option.noConfusion hy

/-- Claim C5 (amended): whenever there are at least two analysis records, every
record's adjusted percentage — after the curve, the clip, and (if enabled) the
cusp-avoidance policy — is a number in the closed interval [0, 100].  (With a
single record it is NaN; see the counterexample.) -/
theorem adjusted_in_range (scores : List (Option ℝ)) (m tm ts : ℝ) (b : Bool)
    (h2 : 2 ≤ (pctOriginals scores (resolveMax m)).length) :
    allInRange (adjustedPcts scores m tm ts b) := by
  intro x hx
  unfold adjustedPcts at hx
  rcases List.mem_map.mp hx with ⟨p, hp, rfl⟩
  set ps := pctOriginals scores (resolveMax m) with hps
  have hlen : ¬ ps.length ≤ 1 := by omega
  by_cases hcs : stdVal ps = 0
  · exact postCurve_mem_of_some ps tm ts b p p (adjustOne_of_zero _ _ _ _ hlen hcs)
  · exact postCurve_mem_of_some ps tm ts b p (curveVal ps tm ts p)
      (adjustOne_of_pos _ _ _ _ hlen hcs)

/-- Witness for claim C5's amended statement, with the cusp-avoidance policy
active: the records [55, 60, 65] (max 100) with targets mean 65, std 15 have at
least two records, so every adjusted percentage is in [0, 100]. -/
theorem adjusted_in_range_witness :
    2 ≤ (pctOriginals [some (55:ℝ), some 60, some 65] (resolveMax 100)).length
    ∧ allInRange (adjustedPcts [some (55:ℝ), some 60, some 65] 100 65 15 true) := by
  have hps : pctOriginals [some (55:ℝ), some 60, some 65] (resolveMax 100) = [55, 60, 65] := by
    unfold pctOriginals resolveMax to_percentage
    rw [if_neg (by norm_num)]
    simp [List.reduceOption_cons_of_some]
  have hlen : 2 ≤ (pctOriginals [some (55:ℝ), some 60, some 65] (resolveMax 100)).length := by
    rw [hps]
    norm_num
  exact ⟨hlen, adjusted_in_range [some (55:ℝ), some 60, some 65] 100 65 15 true hlen⟩

/-! ### Claim C6: the categorizer -/

lemma categorize_of_round (p : ℚ) (n : ℤ) (h : pyRound p = n) :
    categorize_percentage (some p) =
      (if 80 ≤ n then "HD" else if 70 ≤ n then "DI" else if 60 ≤ n then "CR"
       else if 50 ≤ n then "PA" else "NN") := by
  show (if 80 ≤ pyRound p then "HD" else if 70 ≤ pyRound p then "DI"
      else if 60 ≤ pyRound p then "CR" else if 50 ≤ pyRound p then "PA" else "NN")
    = (if 80 ≤ n then "HD" else if 70 ≤ n then "DI" else if 60 ≤ n then "CR"
       else if 50 ≤ n then "PA" else "NN")
  rw [h]

lemma categorize_eq_specCategory (p : ℚ) :
    categorize_percentage (some p) = specCategory p := by
  have h80 := le_pyRound_iff_le_roundHalfAway 80 (by norm_num) (by norm_num) p
  have h70 := le_pyRound_iff_le_roundHalfAway 70 (by norm_num) (by norm_num) p
  have h60 := le_pyRound_iff_le_roundHalfAway 60 (by norm_num) (by norm_num) p
  have h50 := le_pyRound_iff_le_roundHalfAway 50 (by norm_num) (by norm_num) p
  rw [categorize_of_round p (pyRound p) rfl]
  unfold specCategory
  split_ifs <;> first | rfl | (exfalso; omega)

/-- Counterexample to claim C6 as stated: the claim asserts
`category(49.999...) = NN`, but 49.999 rounds to 50, so the code categorizes
it as "PA" (and a recurring 49.999... would denote 50, also "PA"). -/
theorem categorize_49_999 :
    categorize_percentage (some (49.999 : ℚ)) = "PA" ∧ ("PA" : String) ≠ "NN" := by
  constructor
  · have he : (49.999 : ℚ) = 49999/1000 := by norm_num
    have hfr : Int.fract (49999/1000 : ℚ) = 999/1000 := by
      unfold Int.fract
      norm_num
    have hr : pyRound (49999/1000 : ℚ) = 50 := by
      rw [pyRound_eq, hfr]
      norm_num
    rw [he, categorize_of_round _ 50 hr]
    norm_num
  · decide

/-- Claim C6 (amended): the categorizer returns one of exactly the five band
names, namely the highest band whose lower bound (0, 50, 60, 70, 80) is at most
the rounded percentage, and this agrees with rounding half away from zero
(Python's banker's rounding differs from half-away rounding only at exact
halves, never across the even bounds 50/60/70/80); a missing percentage gives
"NN".  The claim's example list holds after replacing `category(49.999...) = NN`
by `category(49.999) = PA` (a value in [49.5, 50) rounds up to 50): e.g.
`category(49.4) = NN`, and category of 50, 59, 60, 69, 70, 79, 80, 100 are
PA, PA, CR, CR, DI, DI, HD, HD. -/
theorem categorize_bands :
    (∀ p : ℚ, categorize_percentage (some p) = specCategory p)
    ∧ categorize_percentage (none : Option ℚ) = "NN"
    ∧ categorize_percentage (some (49.4 : ℚ)) = "NN"
    ∧ categorize_percentage (some (50 : ℚ)) = "PA"
    ∧ categorize_percentage (some (59 : ℚ)) = "PA"
    ∧ categorize_percentage (some (60 : ℚ)) = "CR"
    ∧ categorize_percentage (some (69 : ℚ)) = "CR"
    ∧ categorize_percentage (some (70 : ℚ)) = "DI"
    ∧ categorize_percentage (some (79 : ℚ)) = "DI"
    ∧ categorize_percentage (some (80 : ℚ)) = "HD"
    ∧ categorize_percentage (some (100 : ℚ)) = "HD" := by
  refine ⟨categorize_eq_specCategory, rfl, ?_, ?_, ?_, ?_, ?_, ?_, ?_, ?_, ?_⟩
  · have he : (49.4 : ℚ) = 247/5 := by norm_num
    have hfr : Int.fract (247/5 : ℚ) = 2/5 := by
      unfold Int.fract
      norm_num
    have hr : pyRound (247/5 : ℚ) = 49 := by
      rw [pyRound_eq, hfr]
      norm_num
    rw [he, categorize_of_round _ 49 hr]
    norm_num
  · have hr : pyRound (50:ℚ) = 50 := by
      have h := pyRound_intCast 50; norm_num at h; exact h
    rw [categorize_of_round _ 50 hr]
    norm_num
  · have hr : pyRound (59:ℚ) = 59 := by
      have h := pyRound_intCast 59; norm_num at h; exact h
    rw [categorize_of_round _ 59 hr]
    norm_num
  · have hr : pyRound (60:ℚ) = 60 := by
      have h := pyRound_intCast 60; norm_num at h; exact h
    rw [categorize_of_round _ 60 hr]
    norm_num
  · have hr : pyRound (69:ℚ) = 69 := by
      have h := pyRound_intCast 69; norm_num at h; exact h
    rw [categorize_of_round _ 69 hr]
    norm_num
  · have hr : pyRound (70:ℚ) = 70 := by
      have h := pyRound_intCast 70; norm_num at h; exact h
    rw [categorize_of_round _ 70 hr]
    norm_num
  · have hr : pyRound (79:ℚ) = 79 := by
      have h := pyRound_intCast 79; norm_num at h; exact h
    rw [categorize_of_round _ 79 hr]
    norm_num
  · have hr : pyRound (80:ℚ) = 80 := by
      have h := pyRound_intCast 80; norm_num at h; exact h
    rw [categorize_of_round _ 80 hr]
    norm_num
  · have hr : pyRound (100:ℚ) = 100 := by
      have h := pyRound_intCast 100; norm_num at h; exact h
    rw [categorize_of_round _ 100 hr]
    norm_num

/-! ### Claim C9: the export table -/

lemma analysisIdxFrom_cons_some {β : Type} (k : ℕ) (r : β) (rest : List (Option β)) :
    analysisIdxFrom k (some r :: rest) = (k, r) :: analysisIdxFrom (k+1) rest := by
  simp [analysisIdxFrom, List.enumFrom_cons, List.filterMap_cons]

lemma analysisIdxFrom_cons_none {β : Type} (k : ℕ) (rest : List (Option β)) :
    analysisIdxFrom k (none :: rest) = analysisIdxFrom (k+1) rest := by
  simp [analysisIdxFrom, List.enumFrom_cons, List.filterMap_cons]

lemma analysisIdxFrom_ge {β : Type} :
    ∀ (scores : List (Option β)) (k : ℕ), ∀ t ∈ analysisIdxFrom k scores, k ≤ t.1
  | [], _, t, ht => absurd ht (by simp [analysisIdxFrom])
  | none :: rest, k, t, ht => by
    rw [analysisIdxFrom_cons_none] at ht
    have := analysisIdxFrom_ge rest (k+1) t ht
    omega
  | some r :: rest, k, t, ht => by
    rw [analysisIdxFrom_cons_some] at ht
    rcases List.mem_cons.mp ht with rfl | ht2
    · exact le_refl k
    · have := analysisIdxFrom_ge rest (k+1) t ht2
      omega

lemma exportCell_head_some (k : ℕ) (r : ℝ) (rest : List (Option ℝ))
    (ps : List ℝ) (m tm ts : ℝ) (b : Bool) :
    exportCell (analysisIdxFrom k (some r :: rest)) ps m tm ts b k
      = newCells ps m tm ts b r := by
  unfold exportCell
  rw [analysisIdxFrom_cons_some, List.find?_cons_of_pos _ (by simp)]

lemma exportCell_head_none (k : ℕ) (rest : List (Option ℝ))
    (ps : List ℝ) (m tm ts : ℝ) (b : Bool) :
    exportCell (analysisIdxFrom k ((none : Option ℝ) :: rest)) ps m tm ts b k
      = (none, none, none) := by
  unfold exportCell
  rw [analysisIdxFrom_cons_none]
  have hnone : (analysisIdxFrom (k+1) rest).find? (fun t => t.1 == k) = none := by
    apply List.find?_eq_none.mpr
    intro x hx
    have := analysisIdxFrom_ge rest (k+1) x hx
    simp only [beq_iff_eq]
    omega
  rw [hnone]

lemma exportCell_step (k i : ℕ) (h : i ≠ k) (s : Option ℝ) (rest : List (Option ℝ))
    (ps : List ℝ) (m tm ts : ℝ) (b : Bool) :
    exportCell (analysisIdxFrom k (s :: rest)) ps m tm ts b i
      = exportCell (analysisIdxFrom (k+1) rest) ps m tm ts b i := by
  cases s with
  | none => rw [analysisIdxFrom_cons_none]
  | some r =>
    unfold exportCell
    rw [analysisIdxFrom_cons_some, List.find?_cons_of_neg _ (by
      simp only [beq_iff_eq]
      omega)]

lemma enumFrom_fst_ge {α : Type} :
    ∀ (l : List α) (k : ℕ), ∀ ia ∈ List.enumFrom k l, k ≤ ia.1
  | [], _, ia, h => absurd h (by simp)
  | a :: l, k, ia, h => by
    rw [List.enumFrom_cons] at h
    rcases List.mem_cons.mp h with rfl | h2
    · exact le_refl k
    · have := enumFrom_fst_ge l (k+1) ia h2
      omega

lemma exportRows_align {α : Type} (score : α → Option ℝ) (ps : List ℝ)
    (m tm ts : ℝ) (b : Bool) :
    ∀ (rows : List α) (k : ℕ),
      (rows.enumFrom k).map (fun ia =>
        (ia.2, exportCell (analysisIdxFrom k (rows.map score)) ps m tm ts b ia.1))
      = rows.map (fun a => (a, newCellsOpt ps m tm ts b (score a)))
  | [], k => rfl
  | a :: rows, k => by
    rw [List.enumFrom_cons, List.map_cons, List.map_cons]
    congr 1
    · show (a, exportCell (analysisIdxFrom k (score a :: rows.map score)) ps m tm ts b k)
        = (a, newCellsOpt ps m tm ts b (score a))
      rcases hsa : score a with _ | r
      · rw [exportCell_head_none]
        rfl
      · rw [exportCell_head_some]
        rfl
    · have hstep : (rows.enumFrom (k+1)).map (fun ia =>
          (ia.2, exportCell (analysisIdxFrom k (score a :: rows.map score)) ps m tm ts b ia.1))
          = (rows.enumFrom (k+1)).map (fun ia =>
          (ia.2, exportCell (analysisIdxFrom (k+1) (rows.map score)) ps m tm ts b ia.1)) := by
        apply List.map_congr_left
        intro ia hia
        have hge : k + 1 ≤ ia.1 := enumFrom_fst_ge rows (k+1) ia hia
        rw [exportCell_step k ia.1 (by omega) (score a) (rows.map score) ps m tm ts b]
      show (rows.enumFrom (k+1)).map (fun ia =>
          (ia.2, exportCell (analysisIdxFrom k (score a :: rows.map score)) ps m tm ts b ia.1))
          = rows.map (fun a => (a, newCellsOpt ps m tm ts b (score a)))
      rw [hstep]
      exact exportRows_align score ps m tm ts b rows (k+1)

/-- Claim C9 (confirmed): the export is the cleaned table with exactly the three
new columns `"<col> (Curved Raw)"`, `"<col> (Curved %)"`, `"<col> (New Grade)"`
appended in that order; every pre-existing row keeps its content, in order; and
the new cells of each row are blank exactly as dictated by its own score cell —
the computed (2-decimal curved raw, 1-decimal curved percentage, new grade)
triple when the original score is non-missing, and all-blank otherwise. -/
theorem export_structure {α : Type} (rows : List α) (score : α → Option ℝ)
    (m tm ts : ℝ) (b : Bool) (header : List String) (col : String) :
    (exportRows rows score m tm ts b).map Prod.fst = rows
    ∧ exportRows rows score m tm ts b
        = rows.map (fun a =>
            (a, newCellsOpt (pctOriginals (rows.map score) (resolveMax m))
                  (resolveMax m) tm ts b (score a)))
    ∧ exportHeader header col
        = header ++ [col ++ " (Curved Raw)", col ++ " (Curved %)", col ++ " (New Grade)"] := by
  have h2 : exportRows rows score m tm ts b
      = rows.map (fun a =>
          (a, newCellsOpt (pctOriginals (rows.map score) (resolveMax m))
                (resolveMax m) tm ts b (score a))) := by
    unfold exportRows analysisIdx
    rw [show rows.enum = rows.enumFrom 0 from rfl]
    exact exportRows_align score (pctOriginals (rows.map score) (resolveMax m))
      (resolveMax m) tm ts b rows 0
  refine ⟨?_, h2, rfl⟩
  rw [h2, List.map_map]
  exact List.map_id rows

end BellGrade
